import Mathlib

/-!
Verification of the proxy-testing pipeline (amazon_proxy_test.py,
amazon_price_checker.py) against its natural-language specification.
Each Python function the claims touch is shallowly embedded as an
executable Lean definition; network effects and the file system are
passed explicitly, and Python exceptions become Option results.
-/

namespace AmazonProxyTest

/-! ## String helpers mirroring the Python primitives used by the source -/

/-- Leading whitespace removed (helper for pyStrip). -/
def dropWS : List Char → List Char
  | [] => []
  | c :: rest => if c.isWhitespace then dropWS rest else c :: rest

/-- Python str.strip(): remove leading and trailing whitespace. -/
def pyStrip (s : String) : String :=
  String.mk (dropWS (dropWS s.data.reverse).reverse)

/-- Python str.lower() on the ASCII range (the range the source's
pattern lists use). -/
def pyLower (s : String) : String :=
  String.mk (s.data.map Char.toLower)

/-- The first list occurs at the head of the second. -/
def charsMatchHere : List Char → List Char → Bool
  | [], _ => true
  | _ :: _, [] => false
  | n :: ns, h :: hs => n == h && charsMatchHere ns hs

/-- The first list occurs contiguously somewhere in the second. -/
def charsContain (needle : List Char) : List Char → Bool
  | [] => charsMatchHere needle []
  | h :: hs => charsMatchHere needle (h :: hs) || charsContain needle hs

/-- Python membership test for strings: needle in haystack. -/
def pyIn (needle haystack : String) : Bool :=
  charsContain needle.data haystack.data

/-- Python str.startswith. -/
def pyStartsWith (s pat : String) : Bool :=
  charsMatchHere pat.data s.data

/-- Python str.split over a single separator character. -/
def splitOnChar (sep : Char) : List Char → List (List Char)
  | [] => [[]]
  | c :: rest =>
    if c == sep then [] :: splitOnChar sep rest
    else
      match splitOnChar sep rest with
      | [] => [[c]]
      | g :: gs => (c :: g) :: gs

/-- address.split of the colon, as lists of characters turned back into
strings. -/
def pySplitColon (s : String) : List String :=
  (splitOnChar ':' s.data).map String.mk

/-- Decimal digit run as CPython int() reads it after the sign: digits
with single underscores allowed between digits (helper, continues from
an accumulated value). -/
def pyDigitsAux : Nat → List Char → Option Nat
  | acc, [] => some acc
  | acc, '_' :: c :: rest =>
    if c.isDigit then pyDigitsAux (acc * 10 + (c.toNat - 48)) rest else none
  | acc, c :: rest =>
    if c.isDigit then pyDigitsAux (acc * 10 + (c.toNat - 48)) rest else none

/-- Nonempty decimal digit run (first character must be a digit). -/
def pyNatDigits : List Char → Option Nat
  | [] => none
  | c :: rest => if c.isDigit then pyDigitsAux (c.toNat - 48) rest else none

/-- CPython int(str) on decimal text: surrounding whitespace stripped,
optional sign, digits (underscore grouping allowed); none where int()
raises ValueError. -/
def pyInt? (s : String) : Option Int :=
  match (pyStrip s).data with
  | '+' :: rest => (pyNatDigits rest).map Int.ofNat
  | '-' :: rest => (pyNatDigits rest).map (fun n => -(n : Int))
  | l => (pyNatDigits l).map Int.ofNat

/-! ## Proxy (amazon_proxy_test.py, class Proxy) -/

/-- The fields Proxy.__init__ assigns: protocol and address as given,
ip = address.split of a colon, first part, port the int() of the second. -/
structure Proxy where
  protocol : String
  address : String
  ip : String
  port : Int
deriving DecidableEq

/-- self.link as Proxy.__init__ builds it. -/
def Proxy.link (p : Proxy) : String :=
  p.protocol ++ "://" ++ p.address

/-- Proxy construction; none where Python raises: IndexError when the
address has no second colon field, ValueError when int() fails on it. -/
def mkProxy (protocol address : String) : Option Proxy :=
  let parts := pySplitColon address
  match parts[1]? with
  | none => none
  | some portStr =>
    match pyInt? portStr with
    | none => none
    | some port => some ⟨protocol, address, parts.headD "", port⟩

/-! ## check_proxy (amazon_proxy_test.py lines 171-251)

The two network effects are abstracted as functions: fetch gives the
outcome of the first session.get for a website (an exception or a
response status), priceVisible the result of check_amazon_price_visibility
for that website. The loop body is translated branch for branch; a
CheckOutcome also records the verdicts passed to PROXY_STATS and the
websites actually requested, so the counting claims are statable. -/

/-- What the first GET through the proxy produced for one website. -/
inductive FetchResult where
  | exc (errorType : String)
  | resp (statusCode : Nat)
deriving DecidableEq

/-- One PROXY_STATS record: add_success or add_failure with its reason. -/
inductive Verdict where
  | success
  | failure (reason : String)
deriving DecidableEq

/-- Return value of the modelled check_proxy plus its observable trace. -/
structure CheckOutcome where
  ok : Bool
  verdicts : List Verdict
  attempted : List String
deriving DecidableEq

/-- check_proxy body: iterate TEST_WEBSITES; skip PLACEHOLDER entries;
on exception record a failure with the exception type and continue; on
status other than 200 record failure HTTP code and continue; on 200 for
an amazon website consult price visibility (success and return true, or
failure Price not visible and continue); on 200 elsewhere succeed. -/
def check_proxy (fetch : String → FetchResult) (priceVisible : String → Bool) :
    List String → CheckOutcome
  | [] => ⟨false, [], []⟩
  | website :: rest =>
    if pyStartsWith website "PLACEHOLDER" then check_proxy fetch priceVisible rest
    else
      match fetch website with
      | .exc errorType =>
        let r := check_proxy fetch priceVisible rest
        ⟨r.ok, .failure errorType :: r.verdicts, website :: r.attempted⟩
      | .resp code =>
        if code = 200 then
          if pyIn "amazon" website then
            if priceVisible website then ⟨true, [.success], [website]⟩
            else
              let r := check_proxy fetch priceVisible rest
              ⟨r.ok, .failure "Price not visible" :: r.verdicts,
                website :: r.attempted⟩
          else ⟨true, [.success], [website]⟩
        else
          let r := check_proxy fetch priceVisible rest
          ⟨r.ok, .failure ("HTTP " ++ toString code) :: r.verdicts,
            website :: r.attempted⟩

/-! ## collect_results (amazon_proxy_test.py lines 407-432) -/

/-- collect_results: the working list is what the callback queue held;
failed_proxies are the candidates whose link is not among the working
links. -/
def collect_results (checked_proxies proxies : List Proxy) :
    List Proxy × List Proxy :=
  let checked_set := checked_proxies.map Proxy.link
  (checked_proxies, proxies.filter (fun p => !(checked_set.contains p.link)))

/-! ## AmazonPriceChecker (amazon_price_checker.py)

Prices are modelled as exact rationals; 1.00 and 10000.00 and the float
comparisons on them are exact at these magnitudes. -/

/-- self.min_price in AmazonPriceChecker.__init__. -/
def min_price : ℚ := 1

/-- self.max_price in AmazonPriceChecker.__init__. -/
def max_price : ℚ := 10000

/-- The range test inside _parse_price. -/
def priceInRange (price : ℚ) : Bool :=
  decide (min_price ≤ price) && decide (price ≤ max_price)

/-- _parse_price over the numeric candidate values the selector/regex
pipeline yields, in selector priority order: the first value inside the
valid range is returned, values outside it are passed over. -/
def parse_price : List ℚ → Option ℚ
  | [] => none
  | v :: vs => if priceInRange v then some v else parse_price vs

/-- self.unavailable_patterns in AmazonPriceChecker.__init__. -/
def unavailable_patterns : List String :=
  ["currently unavailable", "see price in cart", "pricing unavailable",
   "temporarily out of stock"]

/-- _check_availability: no unavailability phrase occurs in the
lower-cased page text. -/
def check_availability (pageText : String) : Bool :=
  !(unavailable_patterns.any (fun pat => pyIn pat (pyLower pageText)))

/-- A fetched page: the HTTP status, the raw body (response.text) and
the text BeautifulSoup's get_text extracts from it. -/
structure PageResponse where
  status_code : Nat
  text : String
  pageText : String

/-- is_price_visible with the network fetch already performed (the page
is given) and _parse_price abstracted as parsePage: status must be 200,
no captcha or robot-check marker in the lower-cased body, the
availability check must pass, and then a price must be found. -/
def is_price_visible (parsePage : PageResponse → Option ℚ)
    (page : PageResponse) : Bool :=
  if page.status_code ≠ 200 then false
  else if pyIn "captcha" (pyLower page.text) ||
      pyIn "robot check" (pyLower page.text) then false
  else if !(check_availability page.pageText) then false
  else (parsePage page).isSome

/-! ## Blacklist (amazon_proxy_test.py lines 539-596)

The blacklist file is modelled as its list of lines (each line without
the trailing newline the source writes). -/

/-- load_blacklist: the set of stripped non-empty lines (kept as a list;
membership is what the source uses the set for). -/
def load_blacklist (file : List String) : List String :=
  (file.map pyStrip).filter (fun s => s != "")

/-- The lines update_blacklist appends: each failed proxy's link that is
not in the loaded blacklist (the loaded set is fixed for the whole
loop, exactly as in the source). -/
def blacklist_delta (file : List String) (failed : List Proxy) : List String :=
  (failed.map Proxy.link).filter (fun s => !((load_blacklist file).contains s))

/-- update_blacklist: open in append mode and write the delta, leaving
every existing line untouched. -/
def update_blacklist (file : List String) (failed : List Proxy) : List String :=
  file ++ blacklist_delta file failed

/-! ## Proxy loading (amazon_proxy_test.py lines 293-325 and 480-536) -/

/-- The external world of proxy acquisition: the remote source's lines
per protocol and the age in minutes of the local copy (none = absent).
The age field exists so that the staleness policy the spec describes is
statable against the code. -/
structure AcqEnv where
  remote : String → List String
  localAge : String → Option Nat

/-- download_proxy_list: always fetches from the remote source (its own
docstring: Always downloads fresh proxies each time), overwriting the
local file. -/
def download_proxy_list (env : AcqEnv) (protocol : String) : List String :=
  env.remote protocol

/-- The body of the per-protocol loop of load_proxies: lines that are
empty after stripping are skipped, every other line is passed to Proxy
construction; a construction failure propagates (the source catches
nothing there), collapsing the whole call to none. -/
def buildProxies (protocol : String) : List String → Option (List Proxy)
  | [] => some []
  | address :: rest =>
    if pyStrip address == "" then buildProxies protocol rest
    else
      match mkProxy protocol address with
      | none => none
      | some p => (buildProxies protocol rest).map (fun ps => p :: ps)

/-- load_proxies: for every requested protocol it calls
download_proxy_list unconditionally and builds the proxies from the
downloaded lines. The second component records the protocols for which
a download was performed. -/
def load_proxies (env : AcqEnv) : List String → Option (List Proxy × List String)
  | [] => some ([], [])
  | t :: ts =>
    match buildProxies t (download_proxy_list env t) with
    | none => none
    | some ps => (load_proxies env ts).map (fun r => (ps ++ r.1, t :: r.2))

/-- The staleness threshold of 180 minutes the spec names. Modelled from
the spec: no such threshold exists anywhere in the source. -/
def STALE_THRESHOLD_MINUTES : Nat := 180

/-- Modelled from the spec: the download decision the spec describes for
proxy loading (fetch before use exactly when the local copy is stale or
absent); stated here only to be compared with what load_proxies does. -/
def specShouldDownload (env : AcqEnv) (protocol : String) : Bool :=
  match env.localAge protocol with
  | none => true
  | some age => decide (STALE_THRESHOLD_MINUTES ≤ age)

/-! ## Worker pool and sentinels (amazon_proxy_test.py lines 254-274,
351-404 and 464-477)

The shared queue holds proxies and the EXIT sentinel (check_worker
compares its item against the string EXIT); a worker is its loop state:
still running, and how many sentinels it has consumed. A step of the
pool is one worker's queue.get: a proxy item leaves the worker running
(it tests the proxy), the sentinel makes the worker return. -/

/-- An element of the shared work queue. -/
inductive QItem where
  | proxyItem (p : Proxy)
  | exitSignal
deriving DecidableEq

/-- How many EXIT sentinels a queue holds. -/
def countExit : List QItem → Nat
  | [] => 0
  | QItem.exitSignal :: rest => countExit rest + 1
  | QItem.proxyItem _ :: rest => countExit rest

/-- One worker thread's observable loop state. -/
structure Worker where
  running : Bool
  sentinelsSeen : Nat
deriving DecidableEq

/-- The pool: the shared queue and every worker's state. -/
structure PoolState where
  queue : List QItem
  workers : List Worker
deriving DecidableEq

/-- How many workers are still in their loop. -/
def countRunning (ws : List Worker) : Nat :=
  ws.countP (fun w => w.running)

/-- cleanup_workers: put one EXIT sentinel per worker on the queue. -/
def cleanup_workers (proxy_queue : List QItem) (workers : Nat) : List QItem :=
  proxy_queue ++ List.replicate workers QItem.exitSignal

/-- The pool right after cleanup_workers: the not-yet-consumed candidate
items followed by the W sentinels, and W workers all in their loop. -/
def initPool (candidates : List Proxy) (W : Nat) : PoolState :=
  ⟨cleanup_workers (candidates.map QItem.proxyItem) W,
   List.replicate W ⟨true, 0⟩⟩

/-- One interleaving step: a running worker pops the queue head. A proxy
item leaves its state unchanged (check_worker tests it and loops); the
EXIT sentinel ends its loop, counted in sentinelsSeen. -/
inductive PoolStep : PoolState → PoolState → Prop where
  | popProxy (p : Proxy) (q : List QItem) (ws : List Worker) (i : Nat)
      (hi : i < ws.length) (hrun : (ws.get ⟨i, hi⟩).running = true) :
      PoolStep ⟨QItem.proxyItem p :: q, ws⟩ ⟨q, ws⟩
  | popExit (q : List QItem) (ws : List Worker) (i : Nat)
      (hi : i < ws.length) (hrun : (ws.get ⟨i, hi⟩).running = true) :
      PoolStep ⟨QItem.exitSignal :: q, ws⟩
        ⟨q, ws.set i ⟨false, (ws.get ⟨i, hi⟩).sentinelsSeen + 1⟩⟩

/-- Any interleaving of worker steps. -/
def PoolReach (s t : PoolState) : Prop :=
  Relation.ReflTransGen PoolStep s t

/-- monitor_progress's completion condition: it leaves its loop exactly
when the work queue is empty, whatever the workers are doing (the
second argument, how many workers are still running, is not consulted). -/
def monitor_done (remaining : List Proxy) (_workersStillRunning : Nat) : Bool :=
  remaining.isEmpty

/-! ## ProxyStats (amazon_proxy_test.py lines 40-74)

by_protocol and failure_reasons are Python dicts: association lists in
insertion order, keyed by protocol and by reason. -/

/-- One by_protocol bucket. -/
structure ProtocolBucket where
  checked : Nat
  working : Nat
  failed : Nat
deriving DecidableEq

/-- The ProxyStats object's fields. -/
structure ProxyStats where
  total_checked : Nat
  by_protocol : List (String × ProtocolBucket)
  failure_reasons : List (String × Nat)
deriving DecidableEq

/-- ProxyStats.__init__. -/
def freshStats : ProxyStats := ⟨0, [], []⟩

/-- init_protocol: insert a zero bucket only when the protocol has no
entry yet (dict insertion appends at the end). -/
def init_protocol (st : ProxyStats) (protocol : String) : ProxyStats :=
  if (st.by_protocol.lookup protocol).isSome then st
  else ⟨st.total_checked, st.by_protocol ++ [(protocol, ⟨0, 0, 0⟩)],
        st.failure_reasons⟩

/-- Update the bucket of a key in place (dict item assignment). -/
def bumpProtocol (f : ProtocolBucket → ProtocolBucket) :
    List (String × ProtocolBucket) → String → List (String × ProtocolBucket)
  | [], _ => []
  | (k, b) :: rest, protocol =>
    if k == protocol then (k, f b) :: rest
    else (k, b) :: bumpProtocol f rest protocol

/-- Insert-or-increment on failure_reasons (the source initialises the
reason to 0 when absent, then adds 1). -/
def bumpReason : List (String × Nat) → String → List (String × Nat)
  | [], reason => [(reason, 1)]
  | (k, n) :: rest, reason =>
    if k == reason then (k, n + 1) :: rest
    else (k, n) :: bumpReason rest reason

/-- add_success: working and checked of the protocol's bucket and the
run total each gain 1. -/
def add_success (st : ProxyStats) (protocol : String) : ProxyStats :=
  let st := init_protocol st protocol
  ⟨st.total_checked + 1,
   bumpProtocol (fun b => ⟨b.checked + 1, b.working + 1, b.failed⟩)
     st.by_protocol protocol,
   st.failure_reasons⟩

/-- add_failure: failed and checked of the protocol's bucket and the run
total each gain 1, and the reason's count gains 1. -/
def add_failure (st : ProxyStats) (protocol reason : String) : ProxyStats :=
  let st := init_protocol st protocol
  ⟨st.total_checked + 1,
   bumpProtocol (fun b => ⟨b.checked + 1, b.working, b.failed + 1⟩)
     st.by_protocol protocol,
   bumpReason st.failure_reasons reason⟩

/-- One recorded call, carrying what add_success/add_failure read from
their arguments. -/
inductive StatEvent where
  | success (protocol : String)
  | failure (protocol reason : String)

/-- Apply one call to the statistics object. -/
def applyEvent (st : ProxyStats) : StatEvent → ProxyStats
  | .success protocol => add_success st protocol
  | .failure protocol reason => add_failure st protocol reason

/-- A whole call sequence against a fresh ProxyStats. -/
def runEvents (events : List StatEvent) : ProxyStats :=
  events.foldl applyEvent freshStats

/-- Sum of the checked fields over the by_protocol buckets. -/
def sumChecked (l : List (String × ProtocolBucket)) : Nat :=
  (l.map (fun e => e.2.checked)).sum

/-- Sum of the failure_reasons counts. -/
def sumReasons (l : List (String × Nat)) : Nat :=
  (l.map (fun e => e.2)).sum

/-- How many add_failure calls a sequence holds. -/
def countFailureEvents : List StatEvent → Nat
  | [] => 0
  | StatEvent.failure _ _ :: rest => countFailureEvents rest + 1
  | StatEvent.success _ :: rest => countFailureEvents rest

/-! ## Theorems -/

/-- C7: price range boundaries are inclusive: a candidate value v with
min_price ≤ v ≤ max_price is returned as found (in particular exactly
1.00 and exactly 10000.00 are accepted), while one unit below min_price
and one unit above max_price are rejected. -/
theorem price_range_inclusive (v : ℚ) (rest : List ℚ)
    (hlo : min_price ≤ v) (hhi : v ≤ max_price) :
    parse_price (v :: rest) = some v ∧
    parse_price [min_price] = some min_price ∧
    parse_price [max_price] = some max_price ∧
    parse_price [min_price - 1] = none ∧
    parse_price [max_price + 1] = none := by
  refine ⟨?_, by decide, by decide, ?_, ?_⟩
  · simp [parse_price, priceInRange, hlo, hhi]
  · norm_num [parse_price, priceInRange, min_price, max_price]
  · norm_num [parse_price, priceInRange, min_price, max_price]

/-- Witness for C7 at the concrete in-range value 2. -/
theorem price_range_inclusive_witness : parse_price [(2 : ℚ)] = some 2 :=
  (price_range_inclusive 2 [] (by decide) (by decide)).1

/-- C8: a page whose extracted text contains any configured
unavailability phrase is reported as failure by is_price_visible, no
matter what the price extraction would return for it (and in particular
even when its status is 200). -/
theorem unavailable_phrase_fails (page : PageResponse)
    (parsePage : PageResponse → Option ℚ)
    (h : ∃ pat ∈ unavailable_patterns,
        pyIn pat (pyLower page.pageText) = true) :
    is_price_visible parsePage page = false := by
  obtain ⟨pat, hmem, hpat⟩ := h
  have hany : (unavailable_patterns.any
      (fun pat => pyIn pat (pyLower page.pageText))) = true :=
    List.any_eq_true.mpr ⟨pat, hmem, hpat⟩
  simp [is_price_visible, check_availability, hany]

/-- Witness for C8: a status-200 page declaring the product currently
unavailable fails even though price parsing would find a price on it. -/
theorem unavailable_phrase_fails_witness :
    is_price_visible (fun _ => some 5)
      ⟨200, "ordinary body", "Sorry, Currently Unavailable."⟩ = false :=
  unavailable_phrase_fails _ _ ⟨"currently unavailable", by decide, by decide⟩

/-- C2: collect_results partitions the candidates: a candidate lands in
failed_proxies exactly when its link is not among the collected working
links, so at the link level every candidate is in exactly one of the two
partitions, in both or missing from both never. -/
theorem collect_results_partition (checked proxies : List Proxy) (p : Proxy)
    (hp : p ∈ proxies) :
    (p ∈ (collect_results checked proxies).2 ↔
      p.link ∉ (collect_results checked proxies).1.map Proxy.link) ∧
    (p.link ∈ (collect_results checked proxies).1.map Proxy.link ∨
      p ∈ (collect_results checked proxies).2) ∧
    ¬(p.link ∈ (collect_results checked proxies).1.map Proxy.link ∧
      p ∈ (collect_results checked proxies).2) := by
  have hiff : p ∈ (collect_results checked proxies).2 ↔
      p.link ∉ (collect_results checked proxies).1.map Proxy.link := by
    simp [collect_results, List.mem_filter, hp]
  refine ⟨hiff, ?_, ?_⟩
  · by_cases hb : p.link ∈ (collect_results checked proxies).1.map Proxy.link
    · exact Or.inl hb
    · exact Or.inr (hiff.mpr hb)
  · rintro ⟨hb, hf⟩
    exact (hiff.mp hf) hb

/-- Witness for C2: with one working proxy collected out of two
candidates, the second candidate is in failed_proxies exactly because
its link is not a working link. -/
theorem collect_results_partition_witness :
    ((⟨"socks5", "2.2.2.2:1080", "2.2.2.2", 1080⟩ : Proxy) ∈
      (collect_results [⟨"http", "1.1.1.1:80", "1.1.1.1", 80⟩]
        [⟨"http", "1.1.1.1:80", "1.1.1.1", 80⟩,
         ⟨"socks5", "2.2.2.2:1080", "2.2.2.2", 1080⟩]).2 ↔
      (⟨"socks5", "2.2.2.2:1080", "2.2.2.2", 1080⟩ : Proxy).link ∉
      (collect_results [⟨"http", "1.1.1.1:80", "1.1.1.1", 80⟩]
        [⟨"http", "1.1.1.1:80", "1.1.1.1", 80⟩,
         ⟨"socks5", "2.2.2.2:1080", "2.2.2.2", 1080⟩]).1.map Proxy.link) :=
  (collect_results_partition _ _ _ (by decide)).1

/-- Loading the blacklist distributes over file concatenation. -/
lemma load_blacklist_append (a b : List String) :
    load_blacklist (a ++ b) = load_blacklist a ++ load_blacklist b := by
  simp [load_blacklist]

/-- A line that is its own strip and nonempty is loaded from any file
holding it. -/
lemma mem_load_blacklist_self {s : String} {l : List String}
    (hmem : s ∈ l) (hstrip : pyStrip s = s) (hne : s ≠ "") :
    s ∈ load_blacklist l := by
  refine List.mem_filter.mpr ⟨?_, ?_⟩
  · exact hstrip ▸ List.mem_map_of_mem pyStrip hmem
  · simpa using hne

/-- C6: the exclusion merge is idempotent and append-only. For failed
identities that are their own strip, nonempty and pairwise distinct:
merging the same set twice leaves the file exactly as one merge left it;
one merge writes the original file followed by a delta; the delta has no
duplicate lines, and none of its lines was already a line (or a loaded
entry) of the file. -/
theorem update_blacklist_merge (file : List String) (failed : List Proxy)
    (hid : ∀ p ∈ failed, pyStrip p.link = p.link ∧ p.link ≠ "")
    (hnd : (failed.map Proxy.link).Nodup) :
    update_blacklist (update_blacklist file failed) failed =
      update_blacklist file failed ∧
    update_blacklist file failed = file ++ blacklist_delta file failed ∧
    (blacklist_delta file failed).Nodup ∧
    (∀ s ∈ blacklist_delta file failed,
      s ∉ file ∧ s ∉ load_blacklist file) := by
  have hmemdelta : ∀ (l : List String) (s : String),
      s ∈ blacklist_delta l failed ↔
        s ∈ failed.map Proxy.link ∧ s ∉ load_blacklist l := by
    intro l s
    simp [blacklist_delta, List.mem_filter]
  have hprops : ∀ s ∈ failed.map Proxy.link, pyStrip s = s ∧ s ≠ "" := by
    intro s hs
    obtain ⟨p, hp, hlink⟩ := List.mem_map.mp hs
    exact hlink ▸ hid p hp
  refine ⟨?_, rfl, hnd.filter _, ?_⟩
  · -- second merge appends nothing: every failed link is already loaded
    have hnil : blacklist_delta (update_blacklist file failed) failed = [] := by
      by_contra hne
      obtain ⟨s, hs⟩ := List.exists_mem_of_ne_nil _ hne
      obtain ⟨hmap, hnot⟩ := (hmemdelta _ s).mp hs
      obtain ⟨hstrip, hsne⟩ := hprops s hmap
      refine hnot ?_
      rw [update_blacklist, load_blacklist_append]
      by_cases hbl : s ∈ load_blacklist file
      · exact List.mem_append_left _ hbl
      · refine List.mem_append_right _ ?_
        have hsdelta : s ∈ blacklist_delta file failed :=
          (hmemdelta file s).mpr ⟨hmap, hbl⟩
        exact mem_load_blacklist_self hsdelta hstrip hsne
    rw [update_blacklist, hnil, List.append_nil]
  · intro s hs
    obtain ⟨hmap, hnotload⟩ := (hmemdelta file s).mp hs
    obtain ⟨hstrip, hsne⟩ := hprops s hmap
    refine ⟨?_, hnotload⟩
    intro hfile
    exact hnotload (mem_load_blacklist_self hfile hstrip hsne)

/-- Witness for C6: merging one failed proxy twice into a one-line file
leaves the file exactly as one merge left it. -/
theorem update_blacklist_merge_witness :
    update_blacklist
      (update_blacklist ["http://9.9.9.9:3128"]
        [⟨"socks5", "2.2.2.2:1080", "2.2.2.2", 1080⟩])
      [⟨"socks5", "2.2.2.2:1080", "2.2.2.2", 1080⟩] =
    update_blacklist ["http://9.9.9.9:3128"]
      [⟨"socks5", "2.2.2.2:1080", "2.2.2.2", 1080⟩] :=
  (update_blacklist_merge _ _ (by decide) (by decide)).1

/-- C1 counterexample: a proxy that fails with HTTP 503 on both of two
test websites gets TWO failure verdicts (two add_failure calls) from one
check_proxy run, not exactly one: the loop records one verdict per
failing endpoint attempt. -/
theorem check_proxy_two_failures_two_verdicts :
    (check_proxy (fun _ => FetchResult.resp 503) (fun _ => false)
      ["a.example", "b.example"]).verdicts.length = 2 ∧
    (check_proxy (fun _ => FetchResult.resp 503) (fun _ => false)
      ["a.example", "b.example"]).verdicts.length ≠ 1 := by
  constructor <;> decide

/-- C1 amended: check_proxy records exactly one Verdict per attempted
endpoint, not per proxy: the verdict list and the list of websites
actually requested always have the same length, at most one verdict is a
success, and the run reports success exactly when a success verdict was
recorded. -/
theorem check_proxy_one_verdict_per_attempt (fetch : String → FetchResult)
    (priceVisible : String → Bool) (websites : List String) :
    (check_proxy fetch priceVisible websites).verdicts.length =
      (check_proxy fetch priceVisible websites).attempted.length ∧
    (check_proxy fetch priceVisible websites).verdicts.count
      Verdict.success ≤ 1 ∧
    ((check_proxy fetch priceVisible websites).ok = true ↔
      Verdict.success ∈ (check_proxy fetch priceVisible websites).verdicts) := by
  induction websites with
  | nil => simp [check_proxy]
  | cons w rest ih =>
    obtain ⟨ih1, ih2, ih3⟩ := ih
    cases hpl : pyStartsWith w "PLACEHOLDER" with
    | true => simpa [check_proxy, hpl] using ⟨ih1, ih2, ih3⟩
    | false =>
      cases hf : fetch w with
      | exc errorType =>
        refine ⟨?_, ?_, ?_⟩ <;>
          simp [check_proxy, hpl, hf, List.count_cons, ih1, ih2, ih3]
      | resp code =>
        by_cases h200 : code = 200
        · subst h200
          by_cases hz : pyIn "amazon" w = true
          · by_cases hv : priceVisible w = true
            · refine ⟨?_, ?_, ?_⟩ <;> simp [check_proxy, hpl, hf, hz, hv]
            · refine ⟨?_, ?_, ?_⟩ <;>
                simp [check_proxy, hpl, hf, hz, hv, List.count_cons,
                  ih1, ih2, ih3]
          · refine ⟨?_, ?_, ?_⟩ <;> simp [check_proxy, hpl, hf, hz]
        · refine ⟨?_, ?_, ?_⟩ <;>
            simp [check_proxy, hpl, hf, h200, List.count_cons, ih1, ih2, ih3]

/-- check_proxy only requests websites of its input list. -/
lemma check_proxy_attempted_mem (fetch : String → FetchResult)
    (priceVisible : String → Bool) :
    ∀ (websites : List String) (u : String),
      u ∈ (check_proxy fetch priceVisible websites).attempted →
        u ∈ websites := by
  intro websites
  induction websites with
  | nil => intro u hu; simp [check_proxy] at hu
  | cons w rest ih =>
    intro u hu
    have step : u = w ∨ u ∈ (check_proxy fetch priceVisible rest).attempted →
        u ∈ w :: rest := by
      rintro (h | h)
      · exact h ▸ List.mem_cons_self w rest
      · exact List.mem_cons_of_mem w (ih u h)
    cases hpl : pyStartsWith w "PLACEHOLDER" with
    | true =>
      simp only [check_proxy, hpl, if_true] at hu
      exact List.mem_cons_of_mem w (ih u hu)
    | false =>
      cases hf : fetch w with
      | exc errorType =>
        simp [check_proxy, hpl, hf] at hu
        exact step hu
      | resp code =>
        by_cases h200 : code = 200
        · subst h200
          by_cases hz : pyIn "amazon" w = true
          · by_cases hv : priceVisible w = true
            · simp [check_proxy, hpl, hf, hz, hv] at hu
              exact step (Or.inl hu)
            · simp [check_proxy, hpl, hf, hz, hv] at hu
              exact step hu
          · simp [check_proxy, hpl, hf, hz] at hu
            exact step (Or.inl hu)
        · simp [check_proxy, hpl, hf, h200] at hu
          exact step hu

/-- When a website fully succeeds, the websites after it play no role in
check_proxy's result. -/
lemma check_proxy_stops_at_success (fetch : String → FetchResult)
    (priceVisible : String → Bool) (w : String)
    (hpl : pyStartsWith w "PLACEHOLDER" = false)
    (hf : fetch w = FetchResult.resp 200)
    (hpv : pyIn "amazon" w = true → priceVisible w = true) :
    ∀ pre post, check_proxy fetch priceVisible (pre ++ w :: post) =
      check_proxy fetch priceVisible (pre ++ [w]) := by
  intro pre
  induction pre with
  | nil =>
    intro post
    by_cases hz : pyIn "amazon" w = true
    · simp [check_proxy, hpl, hf, hz, hpv hz]
    · simp [check_proxy, hpl, hf, hz]
  | cons a pre ih =>
    intro post
    simp only [List.cons_append]
    cases hpa : pyStartsWith a "PLACEHOLDER" with
    | true => simp [check_proxy, hpa, ih]
    | false =>
      cases hfa : fetch a with
      | exc errorType => simp [check_proxy, hpa, hfa, ih]
      | resp code =>
        by_cases h200 : code = 200
        · subst h200
          by_cases hz : pyIn "amazon" a = true
          · by_cases hv : priceVisible a = true
            · simp [check_proxy, hpa, hfa, hz, hv]
            · simp [check_proxy, hpa, hfa, hz, hv, ih]
          · simp [check_proxy, hpa, hfa, hz]
        · simp [check_proxy, hpa, hfa, h200, ih]

/-- When a website fully succeeds, check_proxy on any list ending with
it returns True. -/
lemma check_proxy_ok_at_success (fetch : String → FetchResult)
    (priceVisible : String → Bool) (w : String)
    (hpl : pyStartsWith w "PLACEHOLDER" = false)
    (hf : fetch w = FetchResult.resp 200)
    (hpv : pyIn "amazon" w = true → priceVisible w = true) :
    ∀ pre, (check_proxy fetch priceVisible (pre ++ [w])).ok = true := by
  intro pre
  induction pre with
  | nil =>
    by_cases hz : pyIn "amazon" w = true
    · simp [check_proxy, hpl, hf, hz, hpv hz]
    · simp [check_proxy, hpl, hf, hz]
  | cons a pre ih =>
    simp only [List.cons_append]
    cases hpa : pyStartsWith a "PLACEHOLDER" with
    | true => simp [check_proxy, hpa, ih]
    | false =>
      cases hfa : fetch a with
      | exc errorType => simp [check_proxy, hpa, hfa, ih]
      | resp code =>
        by_cases h200 : code = 200
        · subst h200
          by_cases hz : pyIn "amazon" a = true
          · by_cases hv : priceVisible a = true
            · simp [check_proxy, hpa, hfa, hz, hv]
            · simp [check_proxy, hpa, hfa, hz, hv, ih]
          · simp [check_proxy, hpa, hfa, hz]
        · simp [check_proxy, hpa, hfa, h200, ih]

/-- C5: endpoint short-circuit. If website w (non-placeholder) answers
with status 200 and, when it is an amazon endpoint, its price is
visible, then check_proxy returns success, its whole result is
independent of the websites after w, and every website it requested lies
in the prefix up to and including w: the endpoints after w are never
attempted. -/
theorem check_proxy_short_circuit (fetch : String → FetchResult)
    (priceVisible : String → Bool) (w : String) (pre post : List String)
    (hpl : pyStartsWith w "PLACEHOLDER" = false)
    (hf : fetch w = FetchResult.resp 200)
    (hpv : pyIn "amazon" w = true → priceVisible w = true) :
    check_proxy fetch priceVisible (pre ++ w :: post) =
      check_proxy fetch priceVisible (pre ++ [w]) ∧
    (check_proxy fetch priceVisible (pre ++ w :: post)).ok = true ∧
    ∀ u ∈ (check_proxy fetch priceVisible (pre ++ w :: post)).attempted,
      u ∈ pre ++ [w] := by
  have heq := check_proxy_stops_at_success fetch priceVisible w hpl hf hpv
    pre post
  refine ⟨heq, ?_, ?_⟩
  · rw [heq]
    exact check_proxy_ok_at_success fetch priceVisible w hpl hf hpv pre
  · intro u hu
    rw [heq] at hu
    exact check_proxy_attempted_mem fetch priceVisible (pre ++ [w]) u hu

/-- Witness for C5: an endpoint list whose second entry succeeds; the
run reports success (and, by the theorem, never touches the third
entry). -/
theorem check_proxy_short_circuit_witness :
    (check_proxy
      (fun s => if s == "ok.example" then FetchResult.resp 200
        else FetchResult.resp 500)
      (fun _ => true)
      ["fail.example", "ok.example", "never.example"]).ok = true :=
  (check_proxy_short_circuit
    (fun s => if s == "ok.example" then FetchResult.resp 200
      else FetchResult.resp 500)
    (fun _ => true) "ok.example" ["fail.example"] ["never.example"]
    (by decide) (by decide) (by decide)).2.1

/-- Building the proxies of one protocol fails exactly on a line that is
nonempty after stripping and on which Proxy construction raises. -/
lemma buildProxies_none_iff (protocol : String) (data : List String) :
    buildProxies protocol data = none ↔
      ∃ a ∈ data, pyStrip a ≠ "" ∧ mkProxy protocol a = none := by
  induction data with
  | nil => simp [buildProxies]
  | cons a rest ih =>
    by_cases hempty : pyStrip a == ""
    · have hmk : ¬(pyStrip a ≠ "" ∧ mkProxy protocol a = none) := by
        rintro ⟨hne, _⟩
        exact hne (by simpa using hempty)
      simp only [buildProxies, if_pos hempty, List.mem_cons, ih]
      constructor
      · rintro ⟨x, hx, hprop⟩
        exact ⟨x, Or.inr hx, hprop⟩
      · rintro ⟨x, hx | hx, hprop⟩
        · exact absurd (hx ▸ hprop) hmk
        · exact ⟨x, hx, hprop⟩
    · cases hmk : mkProxy protocol a with
      | none =>
        simp only [buildProxies, if_neg hempty, hmk]
        exact Iff.intro
          (fun _ => ⟨a, List.mem_cons_self a rest,
            fun h => hempty (by simp [h]), hmk⟩)
          (fun _ => trivial)
      | some p =>
        simp only [buildProxies, if_neg hempty, hmk, Option.map_eq_none',
          List.mem_cons, ih]
        constructor
        · rintro ⟨x, hx, hprop⟩
          exact ⟨x, Or.inr hx, hprop⟩
        · rintro ⟨x, hx | hx, hprop⟩
          · rw [hx] at hprop
            rw [hprop.2] at hmk
            exact absurd hmk (by simp)
          · exact ⟨x, hx, hprop⟩

/-- C3 counterexample: load_proxies with a downloaded list holding one
good line and one malformed line (no colon) does not return normally at
all: Proxy construction raises (modelled as none) and the error
propagates out of load_proxies instead of the line being skipped. -/
theorem load_proxies_malformed_fatal_cex :
    load_proxies ⟨fun _ => ["8.8.8.8:53", "badline"], fun _ => none⟩
      ["http"] = none := by decide

/-- C3 amended: a malformed non-empty address line (no second colon
field, or a port int() cannot read) is fatal, not skipped: load_proxies
fails exactly when some requested protocol's downloaded data holds such
a line; only lines that are empty after stripping are skipped
silently. -/
theorem load_proxies_malformed_fatal (env : AcqEnv) (types : List String) :
    load_proxies env types = none ↔
      ∃ t ∈ types, ∃ a ∈ download_proxy_list env t,
        pyStrip a ≠ "" ∧ mkProxy t a = none := by
  induction types with
  | nil => simp [load_proxies]
  | cons t ts ih =>
    cases hb : buildProxies t (download_proxy_list env t) with
    | none =>
      simp only [load_proxies, hb, List.mem_cons]
      have := (buildProxies_none_iff t (download_proxy_list env t)).mp hb
      obtain ⟨a, ha, hprop⟩ := this
      exact Iff.intro
        (fun _ => ⟨t, Or.inl rfl, a, ha, hprop⟩)
        (fun _ => trivial)
    | some ps =>
      have hb2 : ¬∃ a ∈ download_proxy_list env t,
          pyStrip a ≠ "" ∧ mkProxy t a = none := by
        rw [← buildProxies_none_iff]
        simp [hb]
      simp only [load_proxies, hb, Option.map_eq_none', List.mem_cons, ih]
      constructor
      · rintro ⟨x, hx, hprop⟩
        exact ⟨x, Or.inr hx, hprop⟩
      · rintro ⟨x, hx | hx, hprop⟩
        · subst hx
          exact absurd hprop hb2
        · exact ⟨x, hx, hprop⟩

/-- C4 counterexample: with a local copy refreshed zero minutes ago (not
stale by the 180-minute policy) for protocol http, the spec's policy
performs no download, yet load_proxies downloads for http anyway: the
code never consults freshness. -/
theorem load_proxies_ignores_freshness :
    (load_proxies ⟨fun _ => ["1.2.3.4:80"], fun _ => some 0⟩ ["http"]).map
      Prod.snd = some ["http"] ∧
    specShouldDownload ⟨fun _ => ["1.2.3.4:80"], fun _ => some 0⟩ "http" =
      false := by
  constructor <;> decide

/-- C4 amended: load_proxies fetches a fresh copy for every requested
protocol unconditionally: whenever it returns, the protocols downloaded
are exactly the requested ones, whatever the local copies' ages. -/
theorem load_proxies_always_downloads (env : AcqEnv) (types : List String)
    (r : List Proxy × List String) (h : load_proxies env types = some r) :
    r.2 = types := by
  induction types generalizing r with
  | nil =>
    simp only [load_proxies, Option.some_inj] at h
    rw [← h]
  | cons t ts ih =>
    cases hb : buildProxies t (download_proxy_list env t) with
    | none => simp [load_proxies, hb] at h
    | some ps =>
      simp only [load_proxies, hb] at h
      cases hrec : load_proxies env ts with
      | none => simp [hrec] at h
      | some r2 =>
        rw [hrec] at h
        simp only [Option.map_some', Option.some_inj] at h
        rw [← h]
        simpa using ih r2 hrec

/-- Witness for C4's amended theorem at one concrete environment. -/
theorem load_proxies_always_downloads_witness :
    (([⟨"http", "1.2.3.4:80", "1.2.3.4", 80⟩],
      ["http"]) : List Proxy × List String).2 = ["http"] :=
  load_proxies_always_downloads ⟨fun _ => ["1.2.3.4:80"], fun _ => some 0⟩
    ["http"] ([⟨"http", "1.2.3.4:80", "1.2.3.4", 80⟩], ["http"]) (by decide)

/-- Sentinel count adds over queue concatenation. -/
lemma countExit_append (a b : List QItem) :
    countExit (a ++ b) = countExit a + countExit b := by
  induction a with
  | nil => simp [countExit]
  | cons x rest ih =>
    cases x with
    | proxyItem p => simp [countExit, ih]
    | exitSignal =>
      simp only [List.cons_append, countExit, List.append_eq, ih]
      omega

/-- Candidate items carry no sentinel. -/
lemma countExit_proxies (l : List Proxy) :
    countExit (l.map QItem.proxyItem) = 0 := by
  induction l with
  | nil => rfl
  | cons p rest ih => simpa [countExit] using ih

/-- A block of n sentinels counts n. -/
lemma countExit_replicate (n : Nat) :
    countExit (List.replicate n QItem.exitSignal) = n := by
  induction n with
  | zero => rfl
  | succ n ih => simp [List.replicate_succ, countExit, ih]

/-- All of W freshly started workers are running. -/
lemma countRunning_replicate (W : Nat) :
    countRunning (List.replicate W (⟨true, 0⟩ : Worker)) = W := by
  induction W with
  | zero => rfl
  | succ n ih =>
    simp [countRunning, List.replicate_succ, List.countP_cons] at ih ⊢
    omega

/-- Stopping one running worker lowers the running count by one. -/
lemma countRunning_set (ws : List Worker) (i : Nat) (hi : i < ws.length)
    (w : Worker) (hrun : (ws.get ⟨i, hi⟩).running = true)
    (hw : w.running = false) :
    countRunning (ws.set i w) + 1 = countRunning ws := by
  induction ws generalizing i with
  | nil => simp at hi
  | cons a rest ih =>
    cases i with
    | zero =>
      have ha : a.running = true := hrun
      simp [countRunning, List.countP_cons, ha, hw]
    | succ j =>
      have hj : j < rest.length := by simpa using hi
      have := ih j hj hrun
      simp only [List.set, countRunning, List.countP_cons] at this ⊢
      omega

/-- The invariant coupling queue and workers once the sentinels are
enqueued: as many sentinels remain as workers are running, and every
worker either still runs having seen no sentinel, or has exited on
exactly one. -/
def PoolInv (s : PoolState) : Prop :=
  countExit s.queue = countRunning s.workers ∧
  ∀ w ∈ s.workers, (w.running = true ∧ w.sentinelsSeen = 0) ∨
    (w.running = false ∧ w.sentinelsSeen = 1)

/-- One step preserves the invariant. -/
lemma poolStep_inv {s t : PoolState} (hstep : PoolStep s t)
    (hinv : PoolInv s) : PoolInv t := by
  obtain ⟨h1, h2⟩ := hinv
  cases hstep with
  | popProxy p q ws i hi hrun =>
    refine ⟨?_, h2⟩
    simpa [countExit] using h1
  | popExit q ws i hi hrun =>
    constructor
    · have hset := countRunning_set ws i hi
        ⟨false, (ws.get ⟨i, hi⟩).sentinelsSeen + 1⟩ hrun rfl
      simp only [countExit] at h1
      show countExit q = countRunning
        (ws.set i ⟨false, (ws.get ⟨i, hi⟩).sentinelsSeen + 1⟩)
      omega
    · intro w hw
      rcases List.mem_or_eq_of_mem_set hw with hmem | heq
      · exact h2 w hmem
      · have hold := h2 (ws.get ⟨i, hi⟩) (ws.get_mem i hi)
        rcases hold with ⟨_, hseen⟩ | ⟨hnot, _⟩
        · right
          rw [heq, hseen]
          exact ⟨rfl, rfl⟩
        · rw [hrun] at hnot
          exact absurd hnot (by simp)

/-- The invariant holds along any interleaving. -/
lemma poolReach_inv {s t : PoolState} (h : PoolReach s t)
    (hs : PoolInv s) : PoolInv t := by
  induction h with
  | refl => exact hs
  | tail _ hstep ih => exact poolStep_inv hstep ih

/-- The invariant holds right after cleanup_workers enqueued the
sentinels. -/
lemma initPool_inv (candidates : List Proxy) (W : Nat) :
    PoolInv (initPool candidates W) := by
  constructor
  · simp [initPool, cleanup_workers, countExit_append, countExit_proxies,
      countExit_replicate, countRunning_replicate]
  · intro w hw
    have hw2 := List.eq_of_mem_replicate (by simpa [initPool] using hw)
    rw [hw2]
    exact Or.inl ⟨rfl, rfl⟩

/-- C9: after all candidates are enqueued, cleanup_workers enqueues
exactly W sentinels (one per worker); in any interleaving of worker
steps from that point, once the queue is drained every worker has
consumed exactly one sentinel and has exited on it; and
monitor_progress declares the testing phase complete on an empty queue
no matter how many workers are still running. -/
theorem sentinel_termination (candidates : List Proxy) (W n : Nat)
    (s : PoolState) (hreach : PoolReach (initPool candidates W) s)
    (hq : s.queue = []) :
    countExit (cleanup_workers (candidates.map QItem.proxyItem) W) = W ∧
    (∀ w ∈ s.workers, w.sentinelsSeen = 1 ∧ w.running = false) ∧
    monitor_done [] n = true := by
  obtain ⟨h1, h2⟩ := poolReach_inv hreach (initPool_inv candidates W)
  rw [hq] at h1
  refine ⟨?_, ?_, rfl⟩
  · simp [cleanup_workers, countExit_append, countExit_proxies,
      countExit_replicate]
  · intro w hw
    have hzero : ∀ w ∈ s.workers, ¬(w.running = true) :=
      List.countP_eq_zero.mp (by simpa [countRunning, countExit] using h1.symm)
    rcases h2 w hw with ⟨hr, _⟩ | ⟨hr, hseen⟩
    · exact absurd hr (hzero w hw)
    · exact ⟨hseen, hr⟩

/-- Witness for C9: one worker, no candidates; the single step that pops
the single sentinel drains the queue and the theorem reports that worker
exited after exactly one sentinel. -/
theorem sentinel_termination_witness :
    (Worker.mk false 1).sentinelsSeen = 1 ∧
    (Worker.mk false 1).running = false := by
  have hstep : PoolStep (initPool [] 1) ⟨[], [⟨false, 1⟩]⟩ := by
    show PoolStep ⟨[QItem.exitSignal], [⟨true, 0⟩]⟩ ⟨[], [⟨false, 1⟩]⟩
    exact PoolStep.popExit [] [⟨true, 0⟩] 0 (by decide) rfl
  have h := sentinel_termination [] 1 0 ⟨[], [⟨false, 1⟩]⟩
    (Relation.ReflTransGen.single hstep) rfl
  exact h.2.1 ⟨false, 1⟩ (by simp)

/-- Every bucket balances: checked equals working plus failed. -/
def BucketsOk (l : List (String × ProtocolBucket)) : Prop :=
  ∀ e ∈ l, e.2.checked = e.2.working + e.2.failed

/-- The combined statistics invariant after nfail add_failure calls. -/
def StatsInv (st : ProxyStats) (nfail : Nat) : Prop :=
  BucketsOk st.by_protocol ∧
  st.total_checked = sumChecked st.by_protocol ∧
  sumReasons st.failure_reasons = nfail

/-- Appending a keyed bucket makes its key found. -/
lemma lookup_append_singleton (l : List (String × ProtocolBucket))
    (p : String) (b : ProtocolBucket) :
    ((l ++ [(p, b)]).lookup p).isSome := by
  induction l with
  | nil => simp [List.lookup]
  | cons a rest ih =>
    obtain ⟨k, v⟩ := a
    cases hk : p == k with
    | true => simp [List.lookup, hk]
    | false =>
      have hstep : List.lookup p (((k, v) :: rest) ++ [(p, b)]) =
          List.lookup p (rest ++ [(p, b)]) := by
        simp [List.lookup, hk]
      rw [hstep]
      exact ih

/-- After init_protocol the protocol has an entry. -/
lemma lookup_init_protocol (st : ProxyStats) (p : String) :
    ((init_protocol st p).by_protocol.lookup p).isSome := by
  unfold init_protocol
  by_cases h : (st.by_protocol.lookup p).isSome
  · rw [if_pos h]
    exact h
  · rw [if_neg h]
    exact lookup_append_singleton st.by_protocol p ⟨0, 0, 0⟩

/-- init_protocol keeps the total. -/
lemma init_protocol_total (st : ProxyStats) (p : String) :
    (init_protocol st p).total_checked = st.total_checked := by
  unfold init_protocol
  split <;> rfl

/-- init_protocol keeps the failure reasons. -/
lemma init_protocol_reasons (st : ProxyStats) (p : String) :
    (init_protocol st p).failure_reasons = st.failure_reasons := by
  unfold init_protocol
  split <;> rfl

/-- init_protocol keeps the checked sum (the new bucket is all zero). -/
lemma init_protocol_sumChecked (st : ProxyStats) (p : String) :
    sumChecked (init_protocol st p).by_protocol =
      sumChecked st.by_protocol := by
  unfold init_protocol
  split
  · rfl
  · simp [sumChecked]

/-- init_protocol keeps the bucket balance (the new bucket is 0=0+0). -/
lemma init_protocol_bucketsOk (st : ProxyStats) (p : String)
    (h : BucketsOk st.by_protocol) :
    BucketsOk (init_protocol st p).by_protocol := by
  unfold init_protocol
  split
  · exact h
  · intro e he
    rcases List.mem_append.mp he with hmem | hmem
    · exact h e hmem
    · rw [List.mem_singleton.mp hmem]
      rfl

/-- Bumping a present key through a checked-plus-one update raises the
checked sum by one. -/
lemma bumpProtocol_sumChecked (f : ProtocolBucket → ProtocolBucket)
    (hf : ∀ b, (f b).checked = b.checked + 1) :
    ∀ (l : List (String × ProtocolBucket)) (k : String),
      (l.lookup k).isSome →
      sumChecked (bumpProtocol f l k) = sumChecked l + 1 := by
  intro l
  induction l with
  | nil => intro k h; simp [List.lookup] at h
  | cons a rest ih =>
    intro k h
    obtain ⟨ka, ba⟩ := a
    cases hk : ka == k with
    | true =>
      rw [bumpProtocol, if_pos (by simp [hk])]
      simp only [sumChecked, List.map_cons, List.sum_cons, hf]
      omega
    | false =>
      have hk2 : (k == ka) = false := by
        rw [beq_eq_false_iff_ne] at hk ⊢
        exact fun hc => hk hc.symm
      simp only [List.lookup, hk2] at h
      rw [bumpProtocol, if_neg (by simp [hk])]
      simp only [sumChecked, List.map_cons, List.sum_cons] at ih ⊢
      rw [ih k h]
      omega

/-- Bumping keeps the bucket balance when the update does. -/
lemma bumpProtocol_bucketsOk (f : ProtocolBucket → ProtocolBucket)
    (hf : ∀ b, b.checked = b.working + b.failed →
      (f b).checked = (f b).working + (f b).failed) :
    ∀ (l : List (String × ProtocolBucket)) (k : String),
      BucketsOk l → BucketsOk (bumpProtocol f l k) := by
  intro l
  induction l with
  | nil => intro k h; exact h
  | cons a rest ih =>
    intro k h e he
    obtain ⟨ka, ba⟩ := a
    by_cases hk : ka = k
    · rw [bumpProtocol, if_pos (by simp [hk])] at he
      rcases List.mem_cons.mp he with hmem | hmem
      · rw [hmem]
        exact hf ba (h (ka, ba) (List.mem_cons_self _ _))
      · exact h e (List.mem_cons_of_mem _ hmem)
    · rw [bumpProtocol, if_neg (by simp [hk])] at he
      rcases List.mem_cons.mp he with hmem | hmem
      · exact hmem ▸ h (ka, ba) (List.mem_cons_self _ _)
      · exact ih k (fun x hx => h x (List.mem_cons_of_mem _ hx)) e hmem

/-- Insert-or-increment always raises the reasons sum by one. -/
lemma sumReasons_bumpReason (l : List (String × Nat)) (r : String) :
    sumReasons (bumpReason l r) = sumReasons l + 1 := by
  induction l with
  | nil => simp [bumpReason, sumReasons]
  | cons a rest ih =>
    obtain ⟨k, n⟩ := a
    by_cases hk : k = r
    · simp [bumpReason, hk, sumReasons]
      omega
    · simp only [bumpReason, beq_iff_eq, if_neg hk, sumReasons,
        List.map_cons, List.sum_cons] at ih ⊢
      omega

/-- add_success preserves the statistics invariant. -/
lemma add_success_inv (st : ProxyStats) (p : String) (n : Nat)
    (h : StatsInv st n) : StatsInv (add_success st p) n := by
  obtain ⟨hb, ht, hr⟩ := h
  have hb2 := init_protocol_bucketsOk st p hb
  refine ⟨?_, ?_, ?_⟩
  · exact bumpProtocol_bucketsOk _ (fun b hb3 => by simp [hb3]; omega) _ p hb2
  · show (init_protocol st p).total_checked + 1 = sumChecked (bumpProtocol _ _ p)
    rw [bumpProtocol_sumChecked _ (fun b => rfl) _ p (lookup_init_protocol st p)]
    rw [init_protocol_total, init_protocol_sumChecked, ht]
  · show sumReasons (init_protocol st p).failure_reasons = n
    rw [init_protocol_reasons]
    exact hr

/-- add_failure preserves the statistics invariant, counting one more
failure. -/
lemma add_failure_inv (st : ProxyStats) (p r : String) (n : Nat)
    (h : StatsInv st n) : StatsInv (add_failure st p r) (n + 1) := by
  obtain ⟨hb, ht, hr⟩ := h
  have hb2 := init_protocol_bucketsOk st p hb
  refine ⟨?_, ?_, ?_⟩
  · exact bumpProtocol_bucketsOk _ (fun b hb3 => by simp [hb3]; omega) _ p hb2
  · show (init_protocol st p).total_checked + 1 = sumChecked (bumpProtocol _ _ p)
    rw [bumpProtocol_sumChecked _ (fun b => rfl) _ p (lookup_init_protocol st p)]
    rw [init_protocol_total, init_protocol_sumChecked, ht]
  · show sumReasons (bumpReason (init_protocol st p).failure_reasons r) = n + 1
    rw [sumReasons_bumpReason, init_protocol_reasons, hr]

/-- The invariant carried through a whole event sequence. -/
lemma foldl_stats_inv :
    ∀ (events : List StatEvent) (st : ProxyStats) (n : Nat),
      StatsInv st n →
      StatsInv (events.foldl applyEvent st) (n + countFailureEvents events) := by
  intro events
  induction events with
  | nil => intro st n h; simpa [countFailureEvents] using h
  | cons e rest ih =>
    intro st n h
    cases e with
    | success p =>
      simpa [countFailureEvents] using
        ih (applyEvent st (.success p)) n (add_success_inv st p n h)
    | failure p r =>
      have := ih (applyEvent st (.failure p r)) (n + 1)
        (add_failure_inv st p r n h)
      simpa [countFailureEvents, Nat.add_right_comm, Nat.add_assoc] using this

/-- C10: after any sequence of add_success and add_failure calls from a
fresh ProxyStats, every protocol's checked count equals its working
plus failed counts, total_checked equals the sum of the per-protocol
checked counts, and the failure_reasons counts sum to the number of
add_failure calls. -/
theorem stats_invariant (events : List StatEvent) :
    (∀ e ∈ (runEvents events).by_protocol,
      e.2.checked = e.2.working + e.2.failed) ∧
    (runEvents events).total_checked =
      sumChecked (runEvents events).by_protocol ∧
    sumReasons (runEvents events).failure_reasons =
      countFailureEvents events := by
  have h := foldl_stats_inv events freshStats 0
    ⟨fun e he => absurd he (List.not_mem_nil e), rfl, rfl⟩
  simpa [runEvents, StatsInv, BucketsOk] using h

end AmazonProxyTest
